import Mathlib

/-!
Verification development for the `breathe` keep-alive/relay service.

The repository contains two Python modules:
  * `app.py`    — the multi-target variant (normalizes a list of forward
                  targets, fans a payload out to all of them);
  * `breath.py` — the legacy single-target variant.

Python strings are modelled as `List Char`; environment values that may be
absent are modelled as `Option (List Char)`.  Python string operations used
by the source (`strip`, `rstrip`, `rstrip('/')`, `lower`, `endswith`,
slicing from the right, comma split) are given explicit executable
definitions below, each mirroring the corresponding Python primitive on the
character lists involved (ASCII case folding, the default Python whitespace
set restricted to its ASCII members).
-/

/-- The default Python `strip` and `rstrip` whitespace characters (ASCII part). -/
def isPySpace (c : Char) : Bool :=
  c = ' ' || c = '\t' || c = '\n' || c = '\x0d' || c = '\x0b' || c = '\x0c'

/-- Python rstrip — drop trailing whitespace. -/
def pyRstripWs (l : List Char) : List Char := l.rdropWhile isPySpace

/-- Python strip — drop leading and trailing whitespace. -/
def pyStrip (l : List Char) : List Char := (l.dropWhile isPySpace).rdropWhile isPySpace

/-- Python rstrip with a slash argument — drop trailing slashes. -/
def pyRstripSlash (l : List Char) : List Char := l.rdropWhile (fun c => c == '/')

/-- ASCII case folding of one character, as the Python `str.lower` method acts on
ASCII: codepoints 65–90 (`'A'`–`'Z'`) are shifted by 32, everything else is
unchanged. -/
def lowerChar (c : Char) : Char :=
  if 65 ≤ c.toNat ∧ c.toNat ≤ 90 then Char.ofNat (c.toNat + 32) else c

/-- Python lower. -/
def lowerL (l : List Char) : List Char := l.map lowerChar

/-- `DEFAULT_PULSE_PATH = "/pulse_receiver"` (app.py line 43). -/
def DEFAULT_PULSE_PATH : List Char := "/pulse_receiver".data

/-- The loop guard of `normalize_target_candidate`:
`c.lower().rstrip('/')` ends with `/pulse_receiver` (the Python variable `lower` maintains the lowercased slash-stripped value
of `c` at lines 104 and 108). -/
def stripGuard (c : List Char) : Bool :=
  DEFAULT_PULSE_PATH.isSuffixOf (pyRstripSlash (lowerL c))

/-- The loop body of `normalize_target_candidate`:
app.py line 107: slice off the last 15 characters, then strip trailing slashes. -/
def stripStep (c : List Char) : List Char :=
  pyRstripSlash (c.rdrop DEFAULT_PULSE_PATH.length)

/-- The `while` loop of `normalize_target_candidate` (app.py lines 105–108),
run with explicit fuel.  Each iteration of the Python loop removes at least
`len of /pulse_receiver, 15` characters, so `c.length` steps always
suffice; `stripLoop` below supplies that fuel, and
`stripLoop_eq` proves the defining fixed-point equation of the `while`
loop for it. -/
def stripLoopAux : Nat → List Char → List Char
  | 0, c => c
  | Nat.succ n, c => if stripGuard c then stripLoopAux n (stripStep c) else c

/-- The `while` loop of app.py lines 105–108 (fuel instantiated). -/
def stripLoop (c : List Char) : List Char := stripLoopAux c.length c

/-- `normalize_target_candidate` (app.py lines 88–110).  Returns `none`
where the Python function returns `None`. -/
def normalize_target_candidate (candidate : List Char) : Option (List Char) :=
  if candidate = [] then none
  else
    let c := pyStrip candidate
    if c = [] then none
    else
      let c1 := pyRstripWs c
      let c2 := stripLoop c1
      some (pyRstripSlash c2 ++ DEFAULT_PULSE_PATH)

/-- `DEFAULT_FORWARD_URLS` (app.py lines 46–53). -/
def DEFAULT_FORWARD_URLS : List (List Char) :=
  [ "https://exercise-go9d.onrender.com".data,
    "https://who-i-am-uzh6.onrender.com".data,
    "https://tomorrow-personal-app.onrender.com".data,
    "https://breathe-5006.onrender.com".data,
    "https://church-i0im.onrender.com".data,
    "https://jevicarn-christian-school-z08v.onrender.com".data ]

/-- The three-way selection of raw forward candidates (app.py lines 115–128):
the comma-split multi-target string if non-empty, else the legacy single
target if non-empty, else the built-in defaults.  `rawList` and
`legacyForward` are the already-`strip`ped environment values of
`FORWARD_URLS` and `FORWARD_URL` (app.py lines 59–60). -/
def initialForwardUrls (rawList legacyForward : List Char) : List (List Char) :=
  if rawList ≠ [] then
    ((rawList.splitOn ',').map pyStrip).filter (fun i => i ≠ [])
  else if legacyForward ≠ [] then [legacyForward]
  else DEFAULT_FORWARD_URLS

/-- The `seen`/`final_targets` first-occurrence deduplication loop
(app.py lines 134–140), with the `seen` set modelled as the list of
values inserted so far. -/
def dedupFrom {α : Type} [DecidableEq α] (seen : List α) : List α → List α
  | [] => []
  | u :: rest => if u ∈ seen then dedupFrom seen rest else u :: dedupFrom (u :: seen) rest

/-- `seen = set(); final_targets = []; for u in FORWARD_URLS: ...`
(app.py lines 134–140) starting from the empty `seen` set. -/
def dedupFirst {α : Type} [DecidableEq α] (l : List α) : List α := dedupFrom [] l

/-- Number of occurrences of `x` in a list (used to state "appears exactly
once"). -/
def countOcc {α : Type} [DecidableEq α] (x : α) : List α → Nat
  | [] => 0
  | y :: t => (if y = x then 1 else 0) + countOcc x t

/-- Index of the first occurrence of `x` in a list (length of the list if
absent; used to state "first-occurrence order"). -/
def firstIdx {α : Type} [DecidableEq α] (x : α) : List α → Nat
  | [] => 0
  | y :: t => if y = x then 0 else firstIdx x t + 1

/-- Lines 131–140 of app.py applied to a list of raw candidates:
`[normalize_target_candidate(u) for u in FORWARD_URLS if u]` followed by
first-occurrence deduplication. -/
def buildTargets (cands : List (List Char)) : List (Option (List Char)) :=
  dedupFirst ((cands.filter (fun u => u ≠ [])).map normalize_target_candidate)

/-- The full startup computation of `FORWARD_URLS` (app.py lines 58–60 and
115–140) from the raw environment values of `FORWARD_URLS` and
`FORWARD_URL` (an absent environment variable reads as `""`,
as in `os.environ.get(key, "")`). -/
def startupForwardUrls (forwardUrlsEnv legacyEnv : List Char) : List (Option (List Char)) :=
  buildTargets (initialForwardUrls (pyStrip forwardUrlsEnv) (pyStrip legacyEnv))

/-- Outcome of one `session.post`/`session.get` call as observed by the
caller: either a response (status code and body text) or a raised
transport/timeout exception carrying a message. -/
inductive SendOutcome : Type where
  | success (code : Nat) (text : List Char)
  | failure (err : List Char)
deriving DecidableEq

/-- One entry of the `results` list of `receive_pulse` (app.py lines
206 and 209): `{"url","code","text_snippet"}` on success,
`{"url","error"}` on exception. -/
inductive RelayResult : Type where
  | ok (url : List Char) (code : Nat) (snippet : List Char)
  | err (url : List Char) (msg : List Char)
deriving DecidableEq

/-- The `try/except` body of one fan-out iteration (app.py lines 203–210):
the appended result for target `u` given that sending to `u` had outcome
`o`; the snippet is `r.text[:300]`. -/
def resultFor (u : List Char) (o : SendOutcome) : RelayResult :=
  match o with
  | .success code text => .ok u code (text.take 300)
  | .failure e => .err u e

/-- The fan-out `for` loop of `receive_pulse` (app.py lines 201–213),
accumulating into `results`; `send` gives the outcome for each target.  (The
`PER_TARGET_DELAY` sleep between targets has no effect on the produced
list and is not modelled.) -/
def relayLoop (send : List Char → SendOutcome) :
    List (List Char) → List RelayResult → List RelayResult
  | [], results => results
  | u :: rest, results => relayLoop send rest (results ++ [resultFor u (send u)])

/-- Body of a `receive_pulse` response in the multi-target variant. -/
inductive PulseResponse : Type where
  | depError (msg : List Char)
  | forwarded (results : List RelayResult)
deriving DecidableEq

/-- `receive_pulse` (app.py lines 184–215) as a function of whether the
`requests` dependency is available (`session` non-null), the target list
and the per-target send outcomes; returns (HTTP status, response body).
The payload does not influence the status or the result structure and is
left abstract. -/
def receive_pulse (hasSession : Bool) (targets : List (List Char))
    (send : List Char → SendOutcome) : Nat × PulseResponse :=
  if hasSession then (200, .forwarded (relayLoop send targets []))
  else (500, .depError "requests not installed".data)

/-- Body of a `receive_pulse` response in the legacy single-target variant
(breath.py lines 100–109). -/
inductive LegacyPulseResponse : Type where
  | depError (msg : List Char)
  | forwarded (code : Nat) (snippet : List Char)
  | sendError (msg : List Char)
deriving DecidableEq

/-- `receive_pulse` of the legacy variant (breath.py lines 83–109):
one POST to `FORWARD_URL`; an exception produces a top-level 500
response. -/
def legacy_receive_pulse (hasSession : Bool) (outcome : SendOutcome) :
    Nat × LegacyPulseResponse :=
  if hasSession then
    match outcome with
    | .success code text => (200, .forwarded code (text.take 300))
    | .failure e => (500, .sendError e)
  else (500, .depError "requests not installed".data)

/-- The interval configuration of app.py lines 66–71 and 79–81 (breath.py
lines 40–50 are identical): the `try/except` around the two `float(...)`
parses — `none` models a raise, in which case both fall to the defaults —
followed by the sanity check resetting nonsense values. Numeric values are
modelled as rationals. -/
def computeIntervals (parsedMin parsedMax : Option ℚ) : ℚ × ℚ :=
  let p : ℚ × ℚ :=
    match parsedMin, parsedMax with
    | some a, some b => (a, b)
    | _, _ => (15, 49)
  if p.1 ≤ 0 ∨ p.2 ≤ 0 ∨ p.1 > p.2 then (15, 49) else p

/-- Truthiness of `FORWARD_TOKEN` (`os.environ.get` result): `None` and
the empty string are falsy. -/
def pyTruthyOpt (t : Option (List Char)) : Bool :=
  match t with
  | none => false
  | some s => !s.isEmpty

/-- The header dictionary built before sending (`headers = {}` plus
`if FORWARD_TOKEN: headers["X-PULSE-TOKEN"] = FORWARD_TOKEN`), identical at
app.py lines 197–199, 231–233 and 259–261 and breath.py lines 96–98. -/
def forwardHeaders (token : Option (List Char)) : List (List Char × List Char) :=
  if pyTruthyOpt token then [("X-PULSE-TOKEN".data, token.getD [])] else []

/-- `send_once_and_exit` (app.py lines 254–271): the `SystemExit` code.
`1` if `requests` is missing; else `0` iff for some target the entry in `ok`
is an integer status `< 400`, `2` otherwise. -/
def send_once_and_exit (hasRequests : Bool) (targets : List (List Char))
    (send : List Char → SendOutcome) : Nat :=
  if !hasRequests then 1
  else
    let ok := targets.map (fun u => (u, send u))
    if ok.any (fun p =>
        match p.2 with
        | .success c _ => decide (c < 400)
        | .failure _ => false) then 0 else 2

/-- `send_once_and_exit` of the legacy variant (breath.py lines 139–149):
one GET probe; exit `0` if it returns (any status code), `2` on exception,
`1` if `requests` is missing. -/
def legacy_send_once_and_exit (hasRequests : Bool) (probe : SendOutcome) : Nat :=
  if !hasRequests then 1
  else
    match probe with
    | .success _ _ => 0
    | .failure _ => 2

/-- What running `__main__` does after parsing `--once` (app.py lines
276–286 and breath.py lines 151–159): exit with a code, or start the
HTTP server. -/
inductive MainResult : Type where
  | exited (code : Nat)
  | serverStarted (port : Nat)
deriving DecidableEq

/-- The `__main__` dispatch of app.py lines 281–286. -/
def appMain (once : Bool) (hasRequests : Bool) (targets : List (List Char))
    (send : List Char → SendOutcome) (port : Nat) : MainResult :=
  if once then .exited (send_once_and_exit hasRequests targets send)
  else .serverStarted port

/-- The `__main__` dispatch of breath.py lines 156–159. -/
def legacyMain (once : Bool) (hasRequests : Bool) (probe : SendOutcome)
    (port : Nat) : MainResult :=
  if once then .exited (legacy_send_once_and_exit hasRequests probe)
  else .serverStarted port

/-- The default `TARGET_URL` of the legacy variant (breath.py line 35). -/
def LEGACY_DEFAULT_TARGET : List Char := "https://who-i-am-uzh6.onrender.com/life".data

/-- The default value of `FORWARD_URL` in the legacy variant (breath.py
line 36): `(os.environ.get("TARGET_URL") or TARGET_URL).rstrip("/") +
"/pulse_receiver"`, as a function of the raw `TARGET_URL` environment
value (`none` when unset). -/
def legacy_FORWARD_URL_default (targetEnv : Option (List Char)) : List Char :=
  let TARGET_URL := targetEnv.getD LEGACY_DEFAULT_TARGET
  let base :=
    match targetEnv with
    | some t => if !t.isEmpty then t else TARGET_URL
    | none => TARGET_URL
  pyRstripSlash base ++ DEFAULT_PULSE_PATH

/-- A list starts with a non-whitespace character (or is empty). -/
def headOk (l : List Char) : Prop := ∀ a t, l = a :: t → isPySpace a = false

/-- The shape of candidates quantified over by the suffix-stripping claim:
`withCopies b L` is `b` followed, innermost-last, by one block
a suffix copy `s` then `m` slashes for each `(m, s)` in `L` (so the head of `L` is the final,
outermost copy and `m` counts the slashes following that copy). -/
def withCopies (b : List Char) : List (Nat × List Char) → List Char
  | [] => b
  | (m, s) :: rest => withCopies b rest ++ s ++ List.replicate m '/'

/-! ### Supporting lemmas about the string primitives -/

theorem rdropWhile_pre (p : Char → Bool) (l : List Char) : List.rdropWhile p l <+: l :=
  List.rdropWhile_prefix p l

theorem take_pre (n : Nat) (l : List Char) : List.take n l <+: l :=
  List.take_prefix n l


theorem toNat_ofNat_valid {n : Nat} (h : n < 55296) : (Char.ofNat n).toNat = n := by
  unfold Char.ofNat
  split
  · rfl
  · rename_i hh
    exact absurd (Or.inl (by omega)) hh

theorem lowerChar_eq_slash {c : Char} (h : lowerChar c = '/') : c = '/' := by
  unfold lowerChar at h
  split_ifs at h with hc
  · have h2 := congrArg Char.toNat h
    rw [toNat_ofNat_valid (by omega)] at h2
    have h3 : Char.toNat '/' = 47 := by decide
    omega
  · exact h

theorem lowerChar_beq_slash (c : Char) : (lowerChar c == '/') = (c == '/') := by
  by_cases hc : c = '/'
  · subst hc; decide
  · have h2 : lowerChar c ≠ '/' := fun h => hc (lowerChar_eq_slash h)
    simp [h2, hc]

theorem pyRstripSlash_concat_slash (l : List Char) :
    pyRstripSlash (l ++ ['/']) = pyRstripSlash l :=
  List.rdropWhile_concat_pos _ _ _ (by decide)

theorem pyRstripSlash_append_replicate (l : List Char) (m : Nat) :
    pyRstripSlash (l ++ List.replicate m '/') = pyRstripSlash l := by
  induction m with
  | zero => simp
  | succ n ih =>
      rw [List.replicate_succ', ← List.append_assoc, pyRstripSlash_concat_slash, ih]

theorem pyRstripSlash_append_of_getLast (l s : List Char) (hs : s ≠ [])
    (h : s.getLast hs ≠ '/') : pyRstripSlash (l ++ s) = l ++ s := by
  apply List.rdropWhile_eq_self_iff.mpr
  intro hl
  rw [List.getLast_append' l s hs]
  simp [h]

theorem pyRstripSlash_idem (l : List Char) :
    pyRstripSlash (pyRstripSlash l) = pyRstripSlash l :=
  List.rdropWhile_idempotent _ _

theorem lowerL_pyRstripSlash (l : List Char) :
    lowerL (pyRstripSlash l) = pyRstripSlash (lowerL l) := by
  have hp : ((fun c : Char => c == '/') ∘ lowerChar) = fun c : Char => c == '/' := by
    funext c; exact lowerChar_beq_slash c
  simp only [lowerL, pyRstripSlash, List.rdropWhile]
  rw [← List.map_reverse, List.dropWhile_map, hp, ← List.map_reverse]

theorem PULSE_length : DEFAULT_PULSE_PATH.length = 15 := by decide

theorem lowerL_PULSE : lowerL DEFAULT_PULSE_PATH = DEFAULT_PULSE_PATH := by decide

theorem stripGuard_length {c : List Char} (h : stripGuard c = true) : 15 ≤ c.length := by
  unfold stripGuard at h
  have h2 := (List.isSuffixOf_iff_suffix.mp h).length_le
  have h3 := (rdropWhile_pre (fun c => c == '/') (lowerL c)).length_le
  rw [PULSE_length] at h2
  unfold pyRstripSlash at h2
  have h4 : (lowerL c).length = c.length := List.length_map _ _
  omega

theorem length_stripStep {c : List Char} (h : stripGuard c = true) :
    (stripStep c).length < c.length := by
  have h15 := stripGuard_length h
  have h1 : (c.rdrop DEFAULT_PULSE_PATH.length).length = c.length - 15 := by
    rw [List.rdrop, List.length_take, PULSE_length]
    omega
  have h2 := (rdropWhile_pre (fun c => c == '/')
    (c.rdrop DEFAULT_PULSE_PATH.length)).length_le
  unfold stripStep pyRstripSlash
  omega

theorem stripGuard_nil : stripGuard [] = false := by decide

theorem stripLoopAux_of_guard_false {c : List Char} (h : stripGuard c = false) :
    ∀ n, stripLoopAux n c = c
  | 0 => rfl
  | Nat.succ n => by simp [stripLoopAux, h]

theorem stripLoopAux_congr : ∀ n m (c : List Char), c.length ≤ n → c.length ≤ m →
    stripLoopAux n c = stripLoopAux m c := by
  intro n
  induction n with
  | zero =>
      intro m c hn hm
      rw [List.length_eq_zero.mp (Nat.le_zero.mp hn)]
      rw [stripLoopAux_of_guard_false stripGuard_nil, stripLoopAux_of_guard_false stripGuard_nil]
  | succ k ih =>
      intro m c hn hm
      by_cases hg : stripGuard c = true
      · have hlt := length_stripStep hg
        have h15 := stripGuard_length hg
        cases m with
        | zero => omega
        | succ j =>
            simp only [stripLoopAux, hg, if_true]
            exact ih j (stripStep c) (by omega) (by omega)
      · have hg2 : stripGuard c = false := by simpa using hg
        rw [stripLoopAux_of_guard_false hg2, stripLoopAux_of_guard_false hg2]

theorem stripLoop_eq (c : List Char) :
    stripLoop c = if stripGuard c then stripLoop (stripStep c) else c := by
  by_cases hg : stripGuard c = true
  · rw [if_pos hg]
    have h15 := stripGuard_length hg
    have hlt := length_stripStep hg
    obtain ⟨k, hk⟩ : ∃ k, c.length = k + 1 := ⟨c.length - 1, by omega⟩
    unfold stripLoop
    rw [hk]
    simp only [stripLoopAux, hg, if_true]
    exact stripLoopAux_congr k (stripStep c).length (stripStep c) (by omega) (le_refl _)
  · have hg2 : stripGuard c = false := by simpa using hg
    rw [if_neg hg]
    exact stripLoopAux_of_guard_false hg2 _

theorem stripGuard_stripLoop (c : List Char) : stripGuard (stripLoop c) = false := by
  suffices h : ∀ n (c : List Char), c.length ≤ n → stripGuard (stripLoopAux n c) = false from
    h _ _ (le_refl _)
  intro n
  induction n with
  | zero =>
      intro c hc
      rw [List.length_eq_zero.mp (Nat.le_zero.mp hc)]
      exact stripGuard_nil
  | succ k ih =>
      intro c hc
      by_cases hg : stripGuard c = true
      · have hlt := length_stripStep hg
        simp only [stripLoopAux, hg, if_true]
        exact ih (stripStep c) (by omega)
      · have hg2 : stripGuard c = false := by simpa using hg
        rw [stripLoopAux_of_guard_false hg2]
        exact hg2

theorem stripStep_pre (c : List Char) : stripStep c <+: c :=
  (rdropWhile_pre _ _).trans (take_pre _ _)

theorem stripLoop_pre (c : List Char) : stripLoop c <+: c := by
  suffices h : ∀ n (c : List Char), stripLoopAux n c <+: c from h _ _
  intro n
  induction n with
  | zero => intro c; exact List.prefix_refl _
  | succ k ih =>
      intro c
      by_cases hg : stripGuard c = true
      · simp only [stripLoopAux, hg, if_true]
        exact (ih (stripStep c)).trans (stripStep_pre c)
      · have hg2 : stripGuard c = false := by simpa using hg
        rw [stripLoopAux_of_guard_false hg2]

theorem headOk_of_pre {l₁ l₂ : List Char} (h : l₁ <+: l₂) (h2 : headOk l₂) : headOk l₁ := by
  intro a t ht
  obtain ⟨r, hr⟩ := h
  subst ht
  exact h2 a (t ++ r) (by rw [← hr]; simp)

theorem headOk_dropWhile (p : Char → Bool) (l : List Char) :
    ∀ a t, l.dropWhile p = a :: t → p a = false := by
  induction l with
  | nil => intro a t h; simp at h
  | cons x xs ih =>
      intro a t h
      rw [List.dropWhile_cons] at h
      by_cases hx : p x = true
      · rw [if_pos hx] at h
        exact ih a t h
      · rw [if_neg hx] at h
        cases h
        simpa using hx

theorem headOk_pyStrip (l : List Char) : headOk (pyStrip l) :=
  headOk_of_pre (rdropWhile_pre _ _) (fun a t ht => headOk_dropWhile _ _ a t ht)

theorem headOk_stripped (l : List Char) : headOk (pyRstripWs (pyStrip l)) :=
  headOk_of_pre (rdropWhile_pre _ _) (headOk_pyStrip l)

theorem dropWhile_eq_self_of_headOk {l : List Char} (h : headOk l) :
    l.dropWhile isPySpace = l := by
  cases l with
  | nil => rfl
  | cons a t => rw [List.dropWhile_cons, if_neg (by simp [h a t rfl])]

theorem pulse_head : DEFAULT_PULSE_PATH = '/' :: "pulse_receiver".data := rfl

theorem pulse_getLast (h : DEFAULT_PULSE_PATH ≠ []) : DEFAULT_PULSE_PATH.getLast h = 'r' := rfl

theorem headOk_append_pulse {x : List Char} (h : headOk x) :
    headOk (x ++ DEFAULT_PULSE_PATH) := by
  intro a t ht
  cases x with
  | nil =>
      rw [List.nil_append, pulse_head] at ht
      injection ht with h1 h2
      subst h1
      decide
  | cons b xs =>
      rw [List.cons_append] at ht
      injection ht with h1 h2
      subst h1
      exact h b xs rfl

theorem pyRstripWs_append_pulse (x : List Char) :
    pyRstripWs (x ++ DEFAULT_PULSE_PATH) = x ++ DEFAULT_PULSE_PATH := by
  apply List.rdropWhile_eq_self_iff.mpr
  intro hl
  rw [List.getLast_append' x DEFAULT_PULSE_PATH (by decide), pulse_getLast]
  decide

theorem pyStrip_append_pulse {x : List Char} (h : headOk x) :
    pyStrip (x ++ DEFAULT_PULSE_PATH) = x ++ DEFAULT_PULSE_PATH := by
  unfold pyStrip
  rw [dropWhile_eq_self_of_headOk (headOk_append_pulse h)]
  exact pyRstripWs_append_pulse x

theorem lowerL_append (a b : List Char) : lowerL (a ++ b) = lowerL a ++ lowerL b :=
  List.map_append _ a b

theorem rdrop_append_self (x y : List Char) : (x ++ y).rdrop y.length = x := by
  rw [List.rdrop, List.length_append, Nat.add_sub_cancel]
  exact List.take_left x y

theorem pyRstripSlash_append_pulse (x : List Char) :
    pyRstripSlash (x ++ DEFAULT_PULSE_PATH) = x ++ DEFAULT_PULSE_PATH :=
  pyRstripSlash_append_of_getLast x DEFAULT_PULSE_PATH (by decide)
    (by rw [pulse_getLast]; decide)

theorem stripGuard_pyRstripSlash (b : List Char) :
    stripGuard (pyRstripSlash b) = stripGuard b := by
  unfold stripGuard
  rw [lowerL_pyRstripSlash, pyRstripSlash_idem]

theorem stripGuard_append_pulse (x : List Char) :
    stripGuard (x ++ DEFAULT_PULSE_PATH) = true := by
  unfold stripGuard
  apply List.isSuffixOf_iff_suffix.mpr
  rw [lowerL_append, lowerL_PULSE, pyRstripSlash_append_pulse]
  exact List.suffix_append _ _

theorem stripStep_append_pulse (x : List Char) :
    stripStep (x ++ DEFAULT_PULSE_PATH) = pyRstripSlash x := by
  unfold stripStep
  rw [rdrop_append_self]

/-- Running the suffix-stripping loop on `x.rstrip('/') + '/pulse_receiver'`
when `x` carries no further (case-insensitive, slash-tolerant) trailing copy
of the suffix removes exactly that one appended copy. -/
theorem stripLoop_rstrip_append_pulse {b : List Char} (hg : stripGuard b = false) :
    stripLoop (pyRstripSlash b ++ DEFAULT_PULSE_PATH) = pyRstripSlash b := by
  rw [stripLoop_eq, if_pos (stripGuard_append_pulse _), stripStep_append_pulse,
    pyRstripSlash_idem, stripLoop_eq, if_neg]
  rw [stripGuard_pyRstripSlash, hg]
  simp

theorem normalize_target_eq (candidate : List Char) (h1 : candidate ≠ [])
    (h2 : pyStrip candidate ≠ []) :
    normalize_target_candidate candidate =
      some (pyRstripSlash (stripLoop (pyRstripWs (pyStrip candidate))) ++ DEFAULT_PULSE_PATH) := by
  simp only [normalize_target_candidate, if_neg h1, if_neg h2]

theorem normalize_some_elim {candidate r : List Char}
    (h : normalize_target_candidate candidate = some r) :
    r = pyRstripSlash (stripLoop (pyRstripWs (pyStrip candidate))) ++ DEFAULT_PULSE_PATH := by
  by_cases h1 : candidate = []
  · simp [normalize_target_candidate, h1] at h
  · by_cases h2 : pyStrip candidate = []
    · simp [normalize_target_candidate, h1, h2] at h
    · rw [normalize_target_eq candidate h1 h2] at h
      exact (Option.some.injEq _ _ ▸ h).symm

theorem lowerChar_slash : lowerChar '/' = '/' := by decide

theorem lowerL_replicate_slash (m : Nat) :
    lowerL (List.replicate m '/') = List.replicate m '/' := by
  rw [lowerL, List.map_replicate, lowerChar_slash]

theorem length_of_lower_pulse {s : List Char} (hs : lowerL s = DEFAULT_PULSE_PATH) :
    s.length = 15 := by
  have h := congrArg List.length hs
  rw [lowerL, List.length_map, PULSE_length] at h
  exact h

theorem head_of_lower_pulse {h : Char} {t : List Char}
    (hs : lowerL (h :: t) = DEFAULT_PULSE_PATH) : h = '/' := by
  rw [lowerL, List.map_cons, pulse_head] at hs
  injection hs with h1 h2
  exact lowerChar_eq_slash h1

theorem ne_nil_of_lower_pulse {s : List Char} (hs : lowerL s = DEFAULT_PULSE_PATH) :
    s ≠ [] := by
  intro h
  rw [h] at hs
  exact absurd hs (by decide)

theorem lower_pulse_concat {s : List Char} (hs : lowerL s = DEFAULT_PULSE_PATH) :
    ∃ t c, s = t ++ [c] ∧ lowerChar c = 'r' := by
  rcases List.eq_nil_or_concat s with h | ⟨t, c, h⟩
  · rw [h] at hs
    exact absurd hs (by decide)
  · rw [List.concat_eq_append] at h
    subst h
    refine ⟨t, c, rfl, ?_⟩
    have hs2 : List.map lowerChar t ++ [lowerChar c] = "/pulse_receive".data ++ ['r'] := by
      simpa [lowerL] using hs
    have h2 := List.append_inj_right hs2 (by simpa using congrArg List.length hs2)
    injection (List.append_inj hs2 (by simpa using congrArg List.length hs2)).2 with h3

theorem pyRstripSlash_append_lower_pulse (l s : List Char)
    (hs : lowerL s = DEFAULT_PULSE_PATH) : pyRstripSlash (l ++ s) = l ++ s := by
  obtain ⟨t, c, rfl, hc⟩ := lower_pulse_concat hs
  have hcs : c ≠ '/' := by
    intro h
    rw [h, lowerChar_slash] at hc
    exact absurd hc (by decide)
  rw [← List.append_assoc]
  exact List.rdropWhile_concat_neg _ _ c (by simp [hcs])

/-- One iteration of the stripping loop removes one trailing suffix copy
(any case) together with at most one slash after it, leaving the remaining
prefix stripped of its own trailing slashes. -/
theorem stripLoop_step_copy (X s0 : List Char) (m0 : Nat) (hm : m0 ≤ 1)
    (hs0 : lowerL s0 = DEFAULT_PULSE_PATH) :
    stripLoop (X ++ s0 ++ List.replicate m0 '/') = stripLoop (pyRstripSlash X) := by
  have hlen : s0.length = 15 := length_of_lower_pulse hs0
  have hguard : stripGuard (X ++ s0 ++ List.replicate m0 '/') = true := by
    unfold stripGuard
    apply List.isSuffixOf_iff_suffix.mpr
    rw [lowerL_append, lowerL_append, lowerL_replicate_slash, hs0,
      pyRstripSlash_append_replicate, pyRstripSlash_append_pulse]
    exact List.suffix_append _ _
  rw [stripLoop_eq, if_pos hguard]
  congr 1
  unfold stripStep
  match m0, hm with
  | 0, _ =>
      rw [List.replicate_zero, List.append_nil]
      have h15 : DEFAULT_PULSE_PATH.length = s0.length := by rw [PULSE_length, hlen]
      rw [h15, rdrop_append_self]
  | 1, _ =>
      cases s0 with
      | nil => exact absurd hs0 (by decide)
      | cons h t =>
          have hh : h = '/' := head_of_lower_pulse hs0
          have hlt : t.length = 14 := by
            simp at hlen
            omega
          have hrearrange : (X ++ h :: t) ++ List.replicate 1 '/'
              = (X ++ [h]) ++ (t ++ ['/']) := by
            simp
          rw [hrearrange]
          have h15 : DEFAULT_PULSE_PATH.length = (t ++ ['/']).length := by
            rw [PULSE_length]
            simp [hlt]
          rw [h15, rdrop_append_self, hh, pyRstripSlash_concat_slash]

theorem stripLoop_of_guard_false {c : List Char} (hg : stripGuard c = false) :
    stripLoop c = c := by
  rw [stripLoop_eq, if_neg]
  simp [hg]

/-- Iterating the stripping loop over a whole stack of trailing suffix
copies (the final copy followed by at most one slash) removes all of them,
leaving the base stripped of trailing slashes. -/
theorem stripLoop_withCopies (b : List Char) (hg : stripGuard b = false) :
    ∀ (L : List (Nat × List Char)), (∀ p ∈ L, lowerL p.2 = DEFAULT_PULSE_PATH) →
      ∀ (m0 : Nat) (s0 : List Char), m0 ≤ 1 → lowerL s0 = DEFAULT_PULSE_PATH →
      stripLoop (withCopies b ((m0, s0) :: L)) = pyRstripSlash b := by
  intro L
  induction L with
  | nil =>
      intro _ m0 s0 hm hs0
      show stripLoop (b ++ s0 ++ List.replicate m0 '/') = pyRstripSlash b
      rw [stripLoop_step_copy b s0 m0 hm hs0]
      exact stripLoop_of_guard_false (by rw [stripGuard_pyRstripSlash]; exact hg)
  | cons p rest ih =>
      intro hL m0 s0 hm hs0
      obtain ⟨m1, s1⟩ := p
      have hs1 : lowerL s1 = DEFAULT_PULSE_PATH := hL (m1, s1) (List.mem_cons_self _ _)
      have hrest : ∀ q ∈ rest, lowerL q.2 = DEFAULT_PULSE_PATH :=
        fun q hq => hL q (List.mem_cons_of_mem _ hq)
      show stripLoop (withCopies b ((m1, s1) :: rest) ++ s0 ++ List.replicate m0 '/')
          = pyRstripSlash b
      rw [stripLoop_step_copy _ s0 m0 hm hs0]
      have hclean : pyRstripSlash (withCopies b ((m1, s1) :: rest))
          = withCopies b ((0, s1) :: rest) := by
        show pyRstripSlash (withCopies b rest ++ s1 ++ List.replicate m1 '/')
            = withCopies b rest ++ s1 ++ List.replicate 0 '/'
        rw [List.replicate_zero, List.append_nil, pyRstripSlash_append_replicate,
          pyRstripSlash_append_lower_pulse _ _ hs1]
      rw [hclean]
      exact ih hrest 0 s1 (by omega) hs1

theorem headOk_append {x y : List Char} (hx : headOk x) (hy : headOk y) :
    headOk (x ++ y) := by
  intro a t ht
  cases x with
  | nil => exact hy a t (by simpa using ht)
  | cons b xs =>
      rw [List.cons_append] at ht
      injection ht with h1 h2
      subst h1
      exact hx b xs rfl

theorem headOk_of_lower_pulse {s : List Char} (hs : lowerL s = DEFAULT_PULSE_PATH) :
    headOk s := by
  intro a t ht
  subst ht
  rw [head_of_lower_pulse hs]
  decide

theorem headOk_replicate_slash (m : Nat) : headOk (List.replicate m '/') := by
  intro a t ht
  have ha : a = '/' := by
    cases m with
    | zero => simp at ht
    | succ k =>
        rw [List.replicate_succ] at ht
        injection ht with h1 _
        exact h1.symm
  rw [ha]
  decide

theorem headOk_withCopies {b : List Char} (hb : headOk b) :
    ∀ L, (∀ p ∈ L, lowerL p.2 = DEFAULT_PULSE_PATH) → headOk (withCopies b L) := by
  intro L
  induction L with
  | nil => intro _; exact hb
  | cons p rest ih =>
      intro hL
      obtain ⟨m, s⟩ := p
      exact headOk_append
        (headOk_append (ih (fun q hq => hL q (List.mem_cons_of_mem _ hq)))
          (headOk_of_lower_pulse (hL (m, s) (List.mem_cons_self _ _))))
        (headOk_replicate_slash m)

theorem toNat_le_of_ws {c : Char} (h : isPySpace c = true) : c.toNat ≤ 32 := by
  unfold isPySpace at h
  simp only [Bool.or_eq_true, decide_eq_true_eq] at h
  rcases h with ((((h | h) | h) | h) | h) | h <;> subst h <;> decide

theorem not_ws_of_lower_r {c : Char} (hc : lowerChar c = 'r') : isPySpace c = false := by
  by_cases h : isPySpace c = true
  · have hsmall : c.toNat ≤ 32 := toNat_le_of_ws h
    have hfix : lowerChar c = c := by
      unfold lowerChar
      rw [if_neg (by omega)]
    rw [hfix] at hc
    subst hc
    exact absurd h (by decide)
  · simpa using h

theorem pyRstripWs_concat_ne_ws {l : List Char} {c : Char} (hc : isPySpace c = false) :
    pyRstripWs (l ++ [c]) = l ++ [c] :=
  List.rdropWhile_concat_neg _ _ c (by simp [hc])

theorem pyRstripWs_append_lower_pulse (l s : List Char)
    (hs : lowerL s = DEFAULT_PULSE_PATH) : pyRstripWs (l ++ s) = l ++ s := by
  obtain ⟨t, c, rfl, hc⟩ := lower_pulse_concat hs
  rw [← List.append_assoc]
  exact pyRstripWs_concat_ne_ws (not_ws_of_lower_r hc)

theorem pyStrip_eq_self {l : List Char} (h1 : headOk l) (h2 : pyRstripWs l = l) :
    pyStrip l = l := by
  unfold pyStrip
  rw [dropWhile_eq_self_of_headOk h1]
  exact h2

/-- **C1 (amended)**: for every candidate of the form
base + (suffix copy + slash run)* + final suffix copy + at most one slash —
the final copy in any case variant, at most one trailing slash after it,
any number of slashes between copies — where the base itself carries no
further (case-insensitive, slash-tolerant) trailing copy of
`/pulse_receiver` and starts with a non-whitespace character,
`normalize_target_candidate` strips all the trailing suffix copies and
trailing slashes and appends exactly one canonical `/pulse_receiver`.
(The original claim, which allowed any number of trailing slashes after
the final copy, is refuted by `normalize_double_slash_counterexample`.) -/
theorem normalize_withCopies (b s0 : List Char) (m0 : Nat) (L : List (Nat × List Char))
    (hm : m0 ≤ 1) (hs0 : lowerL s0 = DEFAULT_PULSE_PATH)
    (hL : ∀ p ∈ L, lowerL p.2 = DEFAULT_PULSE_PATH)
    (hg : stripGuard b = false) (hb : headOk b) :
    normalize_target_candidate (withCopies b ((m0, s0) :: L)) =
      some (pyRstripSlash b ++ DEFAULT_PULSE_PATH) := by
  have hok : headOk (withCopies b ((m0, s0) :: L)) :=
    headOk_withCopies hb ((m0, s0) :: L)
      (by
        intro p hp
        rcases List.mem_cons.mp hp with h | h
        · rw [h]
          exact hs0
        · exact hL p h)
  have hrws : pyRstripWs (withCopies b ((m0, s0) :: L)) = withCopies b ((m0, s0) :: L) := by
    show pyRstripWs ((withCopies b L ++ s0) ++ List.replicate m0 '/')
        = (withCopies b L ++ s0) ++ List.replicate m0 '/'
    match m0, hm with
    | 0, _ =>
        rw [List.replicate_zero, List.append_nil]
        exact pyRstripWs_append_lower_pulse _ _ hs0
    | 1, _ =>
        have h1 : List.replicate 1 '/' = ['/'] := rfl
        rw [h1]
        exact pyRstripWs_concat_ne_ws (by decide)
  have hstrip : pyStrip (withCopies b ((m0, s0) :: L)) = withCopies b ((m0, s0) :: L) :=
    pyStrip_eq_self hok hrws
  have hne : withCopies b ((m0, s0) :: L) ≠ [] := by
    show (withCopies b L ++ s0) ++ List.replicate m0 '/' ≠ []
    exact List.append_ne_nil_of_left_ne_nil
      (List.append_ne_nil_of_right_ne_nil _ (ne_nil_of_lower_pulse hs0)) _
  rw [normalize_target_eq _ hne (by rw [hstrip]; exact hne), hstrip, hrws,
    stripLoop_withCopies b hg L hL m0 s0 hm hs0, pyRstripSlash_idem]

/-- Counterexample to **C1** as stated: a candidate ending in the suffix
followed by two trailing slashes is not normalized to base + suffix; the
slicing step cuts into the suffix and leaves a stray fragment of it in
the base. -/
theorem normalize_double_slash_counterexample :
    normalize_target_candidate "https://a/pulse_receiver//".data
      = some "https://a/p/pulse_receiver".data ∧
    normalize_target_candidate "https://a/pulse_receiver//".data
      ≠ some "https://a/pulse_receiver".data := by
  constructor
  · decide
  · decide

/-- Witness for the amended C1 at a concrete input: candidate
`https://a/pulse_receiver///PULSE_receiver/` (an inner lowercase copy
followed by two slashes, a final mixed-case copy followed by one slash)
normalizes to `https://a/pulse_receiver`. -/
theorem normalize_withCopies_witness :
    normalize_target_candidate
        (withCopies "https://a".data [(1, "/PULSE_receiver".data), (2, "/pulse_receiver".data)])
      = some "https://a/pulse_receiver".data := by
  rw [normalize_withCopies "https://a".data "/PULSE_receiver".data 1
    [(2, "/pulse_receiver".data)] (by decide) (by decide) (by decide) (by decide)
    (fun a t ht => by cases ht; decide)]
  decide

/-- **C4 (confirmed)**: normalization is idempotent — whenever
`normalize_target_candidate c` returns a string `r`, applying
`normalize_target_candidate` to `r` returns `r` again, so
`normalize(normalize(c)) = normalize(c)` for every candidate with a
non-null result. -/
theorem normalize_idempotent (c r : List Char)
    (h : normalize_target_candidate c = some r) :
    normalize_target_candidate r = some r := by
  have hr := normalize_some_elim h
  have hg : stripGuard (stripLoop (pyRstripWs (pyStrip c))) = false := stripGuard_stripLoop _
  have hok : headOk (pyRstripSlash (stripLoop (pyRstripWs (pyStrip c)))) :=
    headOk_of_pre ((rdropWhile_pre _ _).trans (stripLoop_pre _)) (headOk_stripped c)
  have hne : r ≠ [] := by
    rw [hr]
    exact List.append_ne_nil_of_right_ne_nil _ (by decide)
  have hstr : pyStrip r = r := by rw [hr]; exact pyStrip_append_pulse hok
  have hrws : pyRstripWs r = r := by rw [hr]; exact pyRstripWs_append_pulse _
  rw [normalize_target_eq r hne (by rw [hstr]; exact hne), hstr, hrws, hr,
    stripLoop_rstrip_append_pulse hg, pyRstripSlash_idem]

/-- Witness for C4 at a concrete input. -/
theorem normalize_idempotent_witness :
    normalize_target_candidate "https://a.example.com/pulse_receiver".data
      = some "https://a.example.com/pulse_receiver".data :=
  normalize_idempotent "https://a.example.com".data
    "https://a.example.com/pulse_receiver".data (by decide)

/-- **C5 (amended)**: every URL produced by `normalize_target_candidate`
ends in exactly one copy of `/pulse_receiver` — it has the suffix, and
after removing those 15 final characters no further (case-insensitive,
slash-tolerant) copy remains.  The same holds for the default `FORWARD_URL`
of the legacy variant provided the configured probe URL does not itself
end (case-insensitively, modulo trailing slashes) in the suffix; without
that proviso the legacy default carries two copies, see
`legacy_default_double_suffix`. -/
theorem exactly_one_suffix (c r t : List Char)
    (h : normalize_target_candidate c = some r)
    (htne : t ≠ []) (ht : stripGuard t = false) :
    (DEFAULT_PULSE_PATH <:+ r ∧
      stripGuard (r.rdrop DEFAULT_PULSE_PATH.length) = false) ∧
    (DEFAULT_PULSE_PATH <:+ legacy_FORWARD_URL_default (some t) ∧
      stripGuard ((legacy_FORWARD_URL_default (some t)).rdrop DEFAULT_PULSE_PATH.length)
        = false) := by
  have hr := normalize_some_elim h
  have hleg : legacy_FORWARD_URL_default (some t)
      = pyRstripSlash t ++ DEFAULT_PULSE_PATH := by
    unfold legacy_FORWARD_URL_default
    simp [htne]
  refine ⟨⟨?_, ?_⟩, ?_, ?_⟩
  · rw [hr]
    exact List.suffix_append _ _
  · rw [hr, rdrop_append_self, stripGuard_pyRstripSlash]
    exact stripGuard_stripLoop _
  · rw [hleg]
    exact List.suffix_append _ _
  · rw [hleg, rdrop_append_self, stripGuard_pyRstripSlash]
    exact ht

/-- Counterexample to **C5** as stated: with the probe URL configured to a
value already ending in the suffix, the default forward URL of the
legacy variant ends in two copies of `/pulse_receiver`. -/
theorem legacy_default_double_suffix :
    legacy_FORWARD_URL_default (some "https://x/pulse_receiver".data)
      = "https://x/pulse_receiver/pulse_receiver".data ∧
    (DEFAULT_PULSE_PATH ++ DEFAULT_PULSE_PATH).isSuffixOf
      (legacy_FORWARD_URL_default (some "https://x/pulse_receiver".data)) = true := by
  constructor
  · decide
  · decide

/-- Witness for the amended C5 at concrete inputs. -/
theorem exactly_one_suffix_witness :
    (DEFAULT_PULSE_PATH <:+ "https://a.example.com/pulse_receiver".data ∧
      stripGuard (("https://a.example.com/pulse_receiver".data).rdrop
        DEFAULT_PULSE_PATH.length) = false) ∧
    (DEFAULT_PULSE_PATH <:+ legacy_FORWARD_URL_default (some "https://x".data) ∧
      stripGuard ((legacy_FORWARD_URL_default (some "https://x".data)).rdrop
        DEFAULT_PULSE_PATH.length) = false) :=
  exactly_one_suffix "https://a.example.com".data
    "https://a.example.com/pulse_receiver".data "https://x".data
    (by decide) (by decide) (by decide)

/-! ### The startup target list: deduplication and non-emptiness -/

theorem mem_dedupFrom {α : Type} [DecidableEq α] (x : α) :
    ∀ (l seen : List α), x ∈ dedupFrom seen l ↔ x ∈ l ∧ x ∉ seen := by
  intro l
  induction l with
  | nil => intro seen; simp [dedupFrom]
  | cons u rest ih =>
      intro seen
      by_cases hu : u ∈ seen
      · rw [dedupFrom, if_pos hu, ih seen]
        constructor
        · rintro ⟨h1, h2⟩
          exact ⟨List.mem_cons_of_mem _ h1, h2⟩
        · rintro ⟨h1, h2⟩
          rcases List.mem_cons.mp h1 with h3 | h3
          · exact absurd (h3 ▸ hu) h2
          · exact ⟨h3, h2⟩
      · rw [dedupFrom, if_neg hu]
        constructor
        · intro hx
          rcases List.mem_cons.mp hx with h3 | h3
          · subst h3
            exact ⟨List.mem_cons_self _ _, hu⟩
          · obtain ⟨h4, h5⟩ := (ih (u :: seen)).mp h3
            exact ⟨List.mem_cons_of_mem _ h4,
              fun hmem => h5 (List.mem_cons_of_mem _ hmem)⟩
        · rintro ⟨h1, h2⟩
          by_cases hxu : x = u
          · subst hxu
            exact List.mem_cons_self _ _
          · rcases List.mem_cons.mp h1 with h3 | h3
            · exact absurd h3 hxu
            · exact List.mem_cons_of_mem _ ((ih (u :: seen)).mpr
                ⟨h3, fun hmem => (List.mem_cons.mp hmem).elim hxu h2⟩)

theorem nodup_dedupFrom {α : Type} [DecidableEq α] :
    ∀ (l seen : List α), (dedupFrom seen l).Nodup := by
  intro l
  induction l with
  | nil => intro seen; simp [dedupFrom]
  | cons u rest ih =>
      intro seen
      by_cases hu : u ∈ seen
      · rw [dedupFrom, if_pos hu]
        exact ih seen
      · rw [dedupFrom, if_neg hu]
        refine List.nodup_cons.mpr ⟨?_, ih (u :: seen)⟩
        intro hmem
        exact ((mem_dedupFrom u rest (u :: seen)).mp hmem).2 (List.mem_cons_self u seen)

theorem firstIdx_cons_self {α : Type} [DecidableEq α] (u : α) (l : List α) :
    firstIdx u (u :: l) = 0 := by
  simp [firstIdx]

theorem firstIdx_cons_ne {α : Type} [DecidableEq α] {u x : α} (l : List α) (h : u ≠ x) :
    firstIdx x (u :: l) = firstIdx x l + 1 := by
  simp [firstIdx, h]

theorem pairwise_firstIdx_dedupFrom {α : Type} [DecidableEq α] :
    ∀ (l seen : List α),
      (dedupFrom seen l).Pairwise (fun a b => firstIdx a l < firstIdx b l) := by
  intro l
  induction l with
  | nil => intro seen; simp [dedupFrom]
  | cons u rest ih =>
      intro seen
      by_cases hu : u ∈ seen
      · rw [dedupFrom, if_pos hu]
        refine (ih seen).imp_of_mem ?_
        intro a b ha hb hab
        have ha2 := (mem_dedupFrom a rest seen).mp ha
        have hb2 := (mem_dedupFrom b rest seen).mp hb
        have hau : u ≠ a := fun h => ha2.2 (h ▸ hu)
        have hbu : u ≠ b := fun h => hb2.2 (h ▸ hu)
        rw [firstIdx_cons_ne _ hau, firstIdx_cons_ne _ hbu]
        omega
      · rw [dedupFrom, if_neg hu]
        refine List.pairwise_cons.mpr ⟨?_, ?_⟩
        · intro b hb
          have hb2 := (mem_dedupFrom b rest (u :: seen)).mp hb
          have hbu : u ≠ b := fun h => hb2.2 (h ▸ List.mem_cons_self u seen)
          rw [firstIdx_cons_self, firstIdx_cons_ne _ hbu]
          omega
        · refine (ih (u :: seen)).imp_of_mem ?_
          intro a b ha hb hab
          have ha2 := (mem_dedupFrom a rest (u :: seen)).mp ha
          have hb2 := (mem_dedupFrom b rest (u :: seen)).mp hb
          have hau : u ≠ a := fun h => ha2.2 (h ▸ List.mem_cons_self u seen)
          have hbu : u ≠ b := fun h => hb2.2 (h ▸ List.mem_cons_self u seen)
          rw [firstIdx_cons_ne _ hau, firstIdx_cons_ne _ hbu]
          omega

theorem countOcc_eq_zero_of_not_mem {α : Type} [DecidableEq α] {x : α} :
    ∀ {l : List α}, x ∉ l → countOcc x l = 0 := by
  intro l
  induction l with
  | nil => intro _; rfl
  | cons y t ih =>
      intro h
      have hy : y ≠ x := fun he => h (he ▸ List.mem_cons_self y t)
      have ht : x ∉ t := fun hm => h (List.mem_cons_of_mem _ hm)
      simp [countOcc, hy, ih ht]

theorem countOcc_eq_one_of_nodup_mem {α : Type} [DecidableEq α] {x : α} :
    ∀ {l : List α}, l.Nodup → x ∈ l → countOcc x l = 1 := by
  intro l
  induction l with
  | nil => intro _ h; exact absurd h (List.not_mem_nil x)
  | cons y t ih =>
      intro hnd hm
      obtain ⟨hy, ht⟩ := List.nodup_cons.mp hnd
      rcases List.mem_cons.mp hm with h | h
      · subst h
        simp [countOcc, countOcc_eq_zero_of_not_mem hy]
      · have hyx : y ≠ x := fun he => hy (he ▸ h)
        simp [countOcc, hyx, ih ht h]

theorem dedupFirst_ne_nil {α : Type} [DecidableEq α] {l : List α} (h : l ≠ []) :
    dedupFirst l ≠ [] := by
  cases l with
  | nil => exact absurd rfl h
  | cons u rest =>
      unfold dedupFirst
      rw [dedupFrom, if_neg (List.not_mem_nil u)]
      simp

/-- **C2 (amended)**: the startup relay target list is deduplicated
(`Nodup`) for every configuration, and it is non-empty provided that, when
the multi-target string is non-empty after trimming, at least one of its
comma-separated items is non-empty after trimming.  (Without that proviso
the claim fails: a multi-target string consisting of commas/whitespace
only yields an empty list, see `startupForwardUrls_empty_counterexample`.) -/
theorem startupForwardUrls_nonempty_nodup (fwdEnv legacyEnv : List Char)
    (h : pyStrip fwdEnv ≠ [] →
      (((pyStrip fwdEnv).splitOn ',').map pyStrip).filter (fun i => i ≠ []) ≠ []) :
    startupForwardUrls fwdEnv legacyEnv ≠ [] ∧
      (startupForwardUrls fwdEnv legacyEnv).Nodup := by
  constructor
  · unfold startupForwardUrls buildTargets
    apply dedupFirst_ne_nil
    intro hmap
    rw [List.map_eq_nil_iff] at hmap
    apply List.filter_eq_nil_iff.mp at hmap
    unfold initialForwardUrls at hmap
    by_cases h1 : pyStrip fwdEnv ≠ []
    · rw [if_pos h1] at hmap
      rcases List.exists_mem_of_ne_nil _ (h h1) with ⟨a, ha⟩
      have ha2 := List.mem_filter.mp ha
      exact absurd ha2.2 (by simpa using hmap a ha)
    · rw [if_neg h1] at hmap
      by_cases h2 : pyStrip legacyEnv ≠ []
      · rw [if_pos h2] at hmap
        exact absurd (by simpa using h2) (by simpa using hmap _ (List.mem_cons_self _ _))
      · rw [if_neg h2] at hmap
        exact absurd (hmap "https://exercise-go9d.onrender.com".data (by decide))
          (by decide)
  · exact nodup_dedupFrom _ _

/-- Counterexample to **C2** as stated: the multi-target configuration
string `","` is non-empty, so neither the legacy value nor the built-in
defaults are consulted, yet every comma-separated item trims to empty and
the final target list is empty. -/
theorem startupForwardUrls_empty_counterexample :
    startupForwardUrls ",".data "".data = [] := by decide

/-- Witness for the amended C2: both configuration strings unset/empty
falls back to the built-in defaults, which give a non-empty deduplicated
list. -/
theorem startupForwardUrls_nonempty_nodup_witness :
    startupForwardUrls "".data "".data ≠ [] ∧
      (startupForwardUrls "".data "".data).Nodup :=
  startupForwardUrls_nonempty_nodup "".data "".data (fun hh => absurd (by decide) hh)

/-! ### The relay fan-out and the endpoints -/

theorem relayLoop_eq (send : List Char → SendOutcome) :
    ∀ (l : List (List Char)) (acc : List RelayResult),
      relayLoop send l acc = acc ++ l.map (fun u => resultFor u (send u)) := by
  intro l
  induction l with
  | nil => intro acc; simp [relayLoop]
  | cons u rest ih =>
      intro acc
      rw [relayLoop, ih, List.map_cons, List.append_assoc]
      simp

/-- **C3 (amended)**: in the multi-target variant, whenever the HTTP client
dependency is available the receive-and-relay endpoint answers 200 with one
result per target in order, a per-target transport failure being recorded in the entry of that target; the endpoint answers 500 exactly when the
dependency is missing.  In the legacy single-target variant, however, a
downstream failure does surface as a top-level 500
(see `legacy_receive_pulse_500_counterexample`), so the original claim is
restricted to the multi-target variant and amended by the legacy 500
behaviour. -/
theorem receive_pulse_claim (hs : Bool) (targets : List (List Char))
    (send : List Char → SendOutcome) (e : List Char) :
    ((receive_pulse hs targets send).1 = 200 ↔ hs = true) ∧
    ((receive_pulse hs targets send).1 = 500 ↔ hs = false) ∧
    (hs = true → (receive_pulse hs targets send).2 =
      .forwarded (targets.map (fun u => resultFor u (send u)))) ∧
    (∀ (i : Nat) (u e2 : List Char), targets[i]? = some u → send u = .failure e2 →
      (targets.map (fun u => resultFor u (send u)))[i]? = some (RelayResult.err u e2)) ∧
    legacy_receive_pulse true (.failure e) = (500, .sendError e) := by
  refine ⟨?_, ?_, ?_, ?_, rfl⟩
  · cases hs <;> simp [receive_pulse]
  · cases hs <;> simp [receive_pulse]
  · intro h
    subst h
    show (200, PulseResponse.forwarded (relayLoop send targets [])).2 = _
    rw [relayLoop_eq]
    simp
  · intro i u e2 h1 h2
    rw [List.getElem?_map, h1]
    simp [resultFor, h2]

/-- Counterexample to **C3** as stated (the claim cites the endpoint of
the legacy variant too): with the client dependency available, a single
downstream transport failure makes the legacy receive-and-relay endpoint
return a top-level 500 instead of a 200 with the failure in the result
list. -/
theorem legacy_receive_pulse_500_counterexample :
    legacy_receive_pulse true (.failure "timeout".data)
      = (500, .sendError "timeout".data) ∧
    (legacy_receive_pulse true (.failure "timeout".data)).1 ≠ 200 := by
  constructor
  · rfl
  · decide

/-- Witness for the amended C3 at a concrete instance. -/
theorem receive_pulse_claim_witness :
    (receive_pulse true ["https://x/pulse_receiver".data]
        (fun _ => .failure "unreachable".data)).2 =
      .forwarded [.err "https://x/pulse_receiver".data "unreachable".data] :=
  (receive_pulse_claim true ["https://x/pulse_receiver".data]
    (fun _ => .failure "unreachable".data) "".data).2.2.1 rfl

/-- **C7 (confirmed)**: one fan-out over `N` targets produces exactly `N`
results, the `i`-th result being determined by the `i`-th target alone (so
a failure of one target never prevents later targets from being attempted),
and a transport failure on a target yields the error entry of that target. -/
theorem relay_fanout_results (targets : List (List Char))
    (send : List Char → SendOutcome) :
    (relayLoop send targets []).length = targets.length ∧
    (∀ (i : Nat), (relayLoop send targets [])[i]? =
      (targets[i]?).map (fun u => resultFor u (send u))) ∧
    (∀ (i : Nat) (u e : List Char), targets[i]? = some u → send u = .failure e →
      (relayLoop send targets [])[i]? = some (RelayResult.err u e)) := by
  rw [relayLoop_eq]
  refine ⟨by simp, fun i => by simp [List.getElem?_map], ?_⟩
  intro i u e h1 h2
  simp only [List.nil_append, List.getElem?_map, h1]
  simp [resultFor, h2]

/-- **C8 (confirmed)**: if the configured heartbeat interval pair has
min > max, or a non-positive member, or a member that fails numeric
parsing (modelled as `none`), startup resets both intervals to the fixed
defaults `(15, 49)` instead of failing. -/
theorem intervals_reset_to_defaults (pmn pmx : Option ℚ)
    (h : pmn = none ∨ pmx = none ∨
      ∃ a b, pmn = some a ∧ pmx = some b ∧ (b < a ∨ a ≤ 0 ∨ b ≤ 0)) :
    computeIntervals pmn pmx = (15, 49) := by
  have hdef : (if (15 : ℚ) ≤ 0 ∨ (49 : ℚ) ≤ 0 ∨ (15 : ℚ) > 49
      then ((15 : ℚ), (49 : ℚ)) else ((15 : ℚ), (49 : ℚ))) = ((15 : ℚ), (49 : ℚ)) := by
    split <;> rfl
  rcases h with h | h | ⟨a, b, ha, hb, hc⟩
  · subst h
    cases pmx with
    | none => exact hdef
    | some b => exact hdef
  · subst h
    cases pmn with
    | none => exact hdef
    | some a => exact hdef
  · subst ha
    subst hb
    show (if a ≤ 0 ∨ b ≤ 0 ∨ a > b then ((15 : ℚ), (49 : ℚ)) else (a, b)) = (15, 49)
    rw [if_pos]
    rcases hc with h | h | h
    · exact Or.inr (Or.inr h)
    · exact Or.inl h
    · exact Or.inr (Or.inl h)

/-- Witness for C8 at a concrete input (min 50 > max 20). -/
theorem intervals_reset_to_defaults_witness :
    computeIntervals (some 50) (some 20) = (15, 49) :=
  intervals_reset_to_defaults (some 50) (some 20)
    (Or.inr (Or.inr ⟨50, 20, rfl, rfl, Or.inl (by norm_num)⟩))

theorem send_once_true_eq (targets : List (List Char)) (send : List Char → SendOutcome) :
    send_once_and_exit true targets send
      = if (targets.map (fun u => (u, send u))).any (fun p =>
          match p.2 with
          | SendOutcome.success c _ => decide (c < 400)
          | SendOutcome.failure _ => false) = true then 0 else 2 := rfl

/-- **C9 (confirmed)**: with `--once`, both variants exit instead of
starting the HTTP server; the exit code is 1 when the client dependency is
missing, and otherwise 0 exactly when a delivery succeeds — in the
multi-target variant, the POST to some target returns a status below 400; in
the legacy variant, the probe GET returns at all — and a non-zero code (2)
otherwise. -/
theorem once_flag_exit_codes (hr : Bool) (targets : List (List Char))
    (send : List Char → SendOutcome) (probe : SendOutcome) (port : Nat) :
    appMain true hr targets send port = .exited (send_once_and_exit hr targets send) ∧
    legacyMain true hr probe port = .exited (legacy_send_once_and_exit hr probe) ∧
    (hr = false → send_once_and_exit hr targets send = 1 ∧
      legacy_send_once_and_exit hr probe = 1) ∧
    (hr = true → (send_once_and_exit hr targets send = 0 ↔
      ∃ u ∈ targets, ∃ c t, send u = .success c t ∧ c < 400)) ∧
    (hr = true → send_once_and_exit hr targets send = 0 ∨
      send_once_and_exit hr targets send = 2) ∧
    (hr = true → (legacy_send_once_and_exit hr probe = 0 ↔
      ∃ c t, probe = .success c t)) := by
  have key : (targets.map (fun u => (u, send u))).any (fun p =>
      match p.2 with
      | SendOutcome.success c _ => decide (c < 400)
      | SendOutcome.failure _ => false) = true ↔
      ∃ u ∈ targets, ∃ c t, send u = .success c t ∧ c < 400 := by
    rw [List.any_eq_true]
    constructor
    · rintro ⟨p, hp, hpred⟩
      obtain ⟨u, hu, rfl⟩ := List.mem_map.mp hp
      cases h2 : send u with
      | success c t =>
          refine ⟨u, hu, c, t, h2, ?_⟩
          rw [h2] at hpred
          exact of_decide_eq_true hpred
      | failure e =>
          rw [h2] at hpred
          simp at hpred
    · rintro ⟨u, hu, c, t, hsend, hc⟩
      refine ⟨(u, send u), List.mem_map_of_mem _ hu, ?_⟩
      rw [hsend]
      simpa using hc
  refine ⟨rfl, rfl, ?_, ?_, ?_, ?_⟩
  · intro h
    subst h
    exact ⟨rfl, rfl⟩
  · intro h
    subst h
    rw [send_once_true_eq]
    split
    · rename_i hany
      exact ⟨fun _ => key.mp hany, fun _ => rfl⟩
    · rename_i hany
      constructor
      · intro h0
        exact absurd h0 (by decide)
      · intro hex
        exact absurd (key.mpr hex) hany
  · intro h
    subst h
    rw [send_once_true_eq]
    split
    · exact Or.inl rfl
    · exact Or.inr rfl
  · intro h
    subst h
    cases probe <;> simp [legacy_send_once_and_exit]

/-- Witness for C9 at concrete inputs: one reachable target answering 204
gives exit code 0. -/
theorem once_flag_exit_codes_witness :
    send_once_and_exit true ["https://x/pulse_receiver".data]
        (fun _ => .success 204 "ok".data) = 0 :=
  (once_flag_exit_codes true ["https://x/pulse_receiver".data]
      (fun _ => .success 204 "ok".data) (.success 200 "".data) 5001).2.2.2.1 rfl |>.mpr
    ⟨"https://x/pulse_receiver".data, List.mem_cons_self _ _, 204, "ok".data, rfl, by decide⟩

/-- **C10 (confirmed)**: in every outbound send path the
`X-PULSE-TOKEN` header is attached iff the configured token is present and
non-empty; a token configured as the empty string behaves exactly like an
absent one. -/
theorem token_header_iff (token : Option (List Char)) :
    ((∃ v, ("X-PULSE-TOKEN".data, v) ∈ forwardHeaders token) ↔
      ∃ s, token = some s ∧ s ≠ []) ∧
    (∀ s, token = some s → s ≠ [] → forwardHeaders token = [("X-PULSE-TOKEN".data, s)]) ∧
    forwardHeaders (some []) = [] ∧ forwardHeaders none = [] := by
  refine ⟨?_, ?_, rfl, rfl⟩
  · cases token with
    | none => simp [forwardHeaders, pyTruthyOpt]
    | some s =>
        cases s with
        | nil => simp [forwardHeaders, pyTruthyOpt]
        | cons a t => simp [forwardHeaders, pyTruthyOpt]
  · intro s hs hne
    subst hs
    have ht : pyTruthyOpt (some s) = true := by
      unfold pyTruthyOpt
      simpa using hne
    unfold forwardHeaders
    rw [if_pos ht]
    rfl

/-- Witness for C10 at a concrete token. -/
theorem token_header_iff_witness :
    forwardHeaders (some "t".data) = [("X-PULSE-TOKEN".data, "t".data)] :=
  (token_header_iff (some "t".data)).2.1 "t".data rfl (by decide)

/-- **C6 (confirmed)**: for every non-empty candidate list, the built
target list contains each normalized entry exactly once, ordered by first
occurrence in the normalized sequence; in particular the three-candidate
scenario from the spec produces exactly the expected two-element list. -/
theorem buildTargets_first_occurrence (cands : List (List Char)) (_hne : cands ≠ []) :
    (∀ x ∈ (cands.filter (fun u => u ≠ [])).map normalize_target_candidate,
      countOcc x (buildTargets cands) = 1) ∧
    (buildTargets cands).Pairwise (fun a b =>
      firstIdx a ((cands.filter (fun u => u ≠ [])).map normalize_target_candidate) <
      firstIdx b ((cands.filter (fun u => u ≠ [])).map normalize_target_candidate)) ∧
    buildTargets ["https://a.example.com".data,
        "https://a.example.com/pulse_receiver".data, "https://b.example.com/".data]
      = [some "https://a.example.com/pulse_receiver".data,
         some "https://b.example.com/pulse_receiver".data] := by
  refine ⟨?_, ?_, by decide⟩
  · intro x hx
    exact countOcc_eq_one_of_nodup_mem (nodup_dedupFrom _ _)
      ((mem_dedupFrom x _ []).mpr ⟨hx, List.not_mem_nil x⟩)
  · exact pairwise_firstIdx_dedupFrom _ _

/-- Witness for C6: the three-candidate scenario of the spec. -/
theorem buildTargets_first_occurrence_witness :
    buildTargets ["https://a.example.com".data,
        "https://a.example.com/pulse_receiver".data, "https://b.example.com/".data]
      = [some "https://a.example.com/pulse_receiver".data,
         some "https://b.example.com/pulse_receiver".data] :=
  (buildTargets_first_occurrence ["https://a.example.com".data] (by decide)).2.2

/-- Witness for C7 at a concrete instance: one unreachable target still
yields exactly one result. -/
theorem relay_fanout_results_witness :
    (relayLoop (fun _ => SendOutcome.failure "down".data)
      ["https://x/pulse_receiver".data] []).length
      = ["https://x/pulse_receiver".data].length :=
  (relay_fanout_results ["https://x/pulse_receiver".data]
    (fun _ => .failure "down".data)).1
